import Mathlib

/-!
Shallow embedding of LibPicoManager (src/Include/PicoManager.h,
src/Source/PicoManager.c).

Modelling conventions:
* Machine addresses are `Nat`; a null pointer is `Option.none`, a non-null
  pointer `some a`.  All sizes are `Nat` (SIZE_T arithmetic in the source
  never wraps for the magnitudes the library handles).
* A C string is a `List Char` holding the bytes up to (not including) the
  terminating NUL; the fixed `char name[32]` field of an entry is represented
  by the list of its characters before the first NUL (strncpy zero-fills the
  tail of the array, so this list determines the whole array).
* The external collaborators declared but not defined in this repository
  (the LibTcg measurement/relocation functions) are parameters: `Externals`
  packs the pure measurement and entry-point functions.  `VirtualAlloc` is
  modelled by an allocation oracle `Nat → Option Nat`: in `LoadPico` the
  oracle is consulted per successive allocation index within a call, in
  `PicoManagerAlloc` it is applied to the requested size; `none` models a
  NULL return.  `VirtualFree` calls are recorded in an explicit list of
  freed addresses returned by the operations that free memory.
* The C functions return BOOL; `LoadPico` has several distinct `return
  FALSE` sites, so its embedding returns a `LoadRes` tag recording which
  exit fired (`LoadRes.toBool` recovers the C return value).
* The NULL-manager guard (`if (!manager) return FALSE`) is dropped: the
  manager argument is always a value here.
-/

/-- PICO_NAME_MAX_LENGTH from PicoManager.h. -/
def PICO_NAME_MAX_LENGTH : Nat := 32

/-- PICO_ENTRY from PicoManager.h.  `code`, `data`, `entryPoint` and `vault`
are pointer fields (none = NULL). -/
structure PicoEntry where
  id : Nat
  name : List Char
  code : Option Nat
  codeSize : Nat
  data : Option Nat
  dataSize : Nat
  entryPoint : Option Nat
  vault : Option Nat
  deriving DecidableEq, Repr

/-- An all-zero PICO_ENTRY, as produced by `memset(entry, 0, sizeof *entry)`. -/
def emptyEntry : PicoEntry :=
  { id := 0, name := [], code := none, codeSize := 0, data := none,
    dataSize := 0, entryPoint := none, vault := none }

/-- PICO_MANAGER from PicoManager.h.  `entries` is the caller-supplied
backing array (length = its allocated slot count). -/
structure PicoManager where
  baseAddress : Option Nat
  blockSize : Nat
  usedSize : Nat
  entries : List PicoEntry
  entryCount : Nat
  entryCapacity : Nat
  interPicoPadding : Nat
  deriving DecidableEq, Repr

/-- The pure external LibTcg functions used by the manager
(PicoCodeSize, PicoDataSize, PicoEntryPoint), abstracted over the vault
address (and for the entry point, the code placement address). -/
structure Externals where
  picoCodeSize : Nat → Nat
  picoDataSize : Nat → Nat
  picoEntryPointF : Nat → Nat → Nat

/-- PicoManagerInit: zeroed region bookkeeping, caller-provided backing
array and capacity, zero padding. -/
def PicoManagerInit (entries : List PicoEntry) (entryCapacity : Nat) :
    PicoManager :=
  { baseAddress := none, blockSize := 0, usedSize := 0, entries := entries,
    entryCount := 0, entryCapacity := entryCapacity, interPicoPadding := 0 }

/-- The effect of `strncpy(entry->name, name, 31); entry->name[31] = 0`:
the stored string is the first 31 characters of the source. -/
def truncName (name : List Char) : List Char :=
  name.take (PICO_NAME_MAX_LENGTH - 1)

/-- AddPico: register a module.  Fails (FALSE) when the catalog is full;
otherwise writes a fresh metadata-only entry at position `entryCount` with
`id = entryCount` and increments the count.  The C function also fails on a
NULL name or vault; name and vault are always present here (`vault` is the
non-null vault address). -/
def AddPico (X : Externals) (m : PicoManager) (name : List Char)
    (vault : Nat) : Bool × PicoManager :=
  if m.entryCount ≥ m.entryCapacity then (false, m)
  else
    let e : PicoEntry :=
      { id := m.entryCount, name := truncName name, code := none,
        codeSize := X.picoCodeSize vault, data := none,
        dataSize := X.picoDataSize vault, entryPoint := none,
        vault := some vault }
    (true, { m with entries := m.entries.set m.entryCount e,
                    entryCount := m.entryCount + 1 })

/-- `strncmp(a, b, n) == 0` for NUL-terminated strings represented as the
lists of their characters before the NUL (the empty list is the
terminator). -/
def strncmpEq : List Char → List Char → Nat → Bool
  | _, _, 0 => true
  | [], [], _ + 1 => true
  | [], _ :: _, _ + 1 => false
  | _ :: _, [], _ + 1 => false
  | a :: as, b :: bs, n + 1 => a == b && strncmpEq as bs n

/-- The per-entry test of GetPicoByName: `nameLen` is `strlen(name)` clamped
to 31; the entry matches when `strncmp(entry->name, name, nameLen) == 0`
and `entry->name[nameLen] == 0`.  Since strncpy zero-fills, the array byte
`name[k]` is NUL exactly when `k ≥` the stored string's length. -/
def nameMatches (stored query : List Char) : Bool :=
  let nameLen := min query.length (PICO_NAME_MAX_LENGTH - 1)
  strncmpEq stored query nameLen && decide (stored.length ≤ nameLen)

/-- The scan loop of GetPicoByName over the occupied slots, returning the
position of the first match (`i` is the position of the head of the
list). -/
def findPicoName (query : List Char) : List PicoEntry → Nat → Option Nat
  | [], _ => none
  | e :: es, i =>
    if nameMatches e.name query then some i
    else findPicoName query es (i + 1)

/-- GetPicoByName: position of the first entry whose stored name matches the
query (the C function returns `&entries[i]`; the position is the faithful
abstraction of that pointer). -/
def GetPicoByName (m : PicoManager) (query : List Char) : Option Nat :=
  findPicoName query (m.entries.take m.entryCount) 0

/-- The compaction loop of RemovePicoById: `r` iterations, each copying
slot `i+1` over slot `i` and rewriting the copied entry's id to `i`. -/
def shiftDown : Nat → Nat → List PicoEntry → List PicoEntry
  | 0, _, es => es
  | r + 1, i, es =>
    shiftDown r (i + 1) (es.set i { es.getD (i + 1) emptyEntry with id := i })

/-- RemovePicoById: fails (FALSE) when `id` is not an occupied position;
otherwise frees the entry's data region (the freed address is the third
component; `VirtualFree` then `entry->data = NULL`), shifts the later
entries one slot left recomputing their ids, zeroes the vacated trailing
slot, and decrements the count. -/
def RemovePicoById (m : PicoManager) (id : Nat) :
    Bool × PicoManager × Option Nat :=
  if id ≥ m.entryCount then (false, m, none)
  else
    let e := m.entries.getD id emptyEntry
    let es0 := m.entries.set id { e with data := none }
    let es1 := shiftDown (m.entryCount - 1 - id) id es0
    let es2 := es1.set (m.entryCount - 1) emptyEntry
    (true, { m with entries := es2, entryCount := m.entryCount - 1 }, e.data)

/-- The loop body of TotalCodeSize over the occupied slots: entries with no
vault are skipped entirely; a live entry contributes its codeSize, plus one
inter-PICO padding when its position is not the last occupied position
(`i < entryCount - 1` in the source, i.e. the entry is not the last element
of the occupied prefix). -/
def totalAux (pad : Nat) : List PicoEntry → Nat
  | [] => 0
  | [e] => if e.vault.isSome then e.codeSize else 0
  | e :: e2 :: es =>
    (if e.vault.isSome then e.codeSize + pad else 0) + totalAux pad (e2 :: es)

/-- TotalCodeSize from PicoManager.c. -/
def TotalCodeSize (m : PicoManager) : Nat :=
  totalAux m.interPicoPadding (m.entries.take m.entryCount)

/-- The occupied entries that have a live vault, in catalog order. -/
def liveEntries (m : PicoManager) : List PicoEntry :=
  (m.entries.take m.entryCount).filter (fun e => e.vault.isSome)

/-- PicoManagerAlloc: computes the required size (TotalCodeSize, which
already contains inter-PICO padding, plus `interPicoPadding * (count - 1)`
again, plus the final padding), requests one RWX allocation of that size
from the oracle, and on success records base, block size and a zero used
size.  On allocation failure `baseAddress` has already been assigned the
NULL result. -/
def PicoManagerAlloc (oracle : Nat → Option Nat) (m : PicoManager)
    (finalPadding : Nat) : Bool × PicoManager :=
  let totalCodeSize := TotalCodeSize m
  let paddingSize :=
    if m.entryCount > 0 then m.interPicoPadding * (m.entryCount - 1) else 0
  let requiredBlockSize := totalCodeSize + paddingSize + finalPadding
  match oracle requiredBlockSize with
  | none => (false, { m with baseAddress := none })
  | some b =>
    (true, { m with baseAddress := some b, blockSize := requiredBlockSize,
                    usedSize := 0 })

/-- Which exit of LoadPico fired.  The C function returns BOOL; the three
failure constructors record the three distinct `return FALSE` sites
(region not allocated; the headroom check; the per-module RW allocation). -/
inductive LoadRes where
  | ok
  | notAllocated
  | insufficientSpace
  | allocFailed
  deriving DecidableEq, Repr

/-- The BOOL actually returned by the C function. -/
def LoadRes.toBool : LoadRes → Bool
  | .ok => true
  | _ => false

/-- The loop of LoadPico.  `r` is the number of remaining iterations
(`stop - i`), `i` the current position, `off` the running code offset,
`aIdx` the index of the next data allocation in this call.  Returns the
exit tag, the final entries array and the final running offset.  Mirrors
the source exactly: already-placed entries only advance the offset; entries
with no vault are skipped; the headroom check fails the call before any
mutation of the current entry; the code placement is assigned BEFORE the
data allocation, so an allocation failure leaves it assigned. -/
def loadLoop (X : Externals) (oracle : Nat → Option Nat)
    (base pad fp blockSize : Nat) :
    Nat → List PicoEntry → Nat → Nat → Nat → LoadRes × List PicoEntry × Nat
  | 0, es, _, off, _ => (.ok, es, off)
  | r + 1, es, i, off, aIdx =>
    let e := es.getD i emptyEntry
    if e.code.isSome then
      loadLoop X oracle base pad fp blockSize r es (i + 1)
        (off + (e.codeSize + pad)) aIdx
    else if e.vault.isNone then
      loadLoop X oracle base pad fp blockSize r es (i + 1) off aIdx
    else if off + (e.codeSize + pad) + fp > blockSize then
      (.insufficientSpace, es, off)
    else
      let placed := { e with code := some (base + off) }
      match oracle aIdx with
      | none => (.allocFailed, es.set i placed, off)
      | some d =>
        let loaded :=
          { placed with
              data := some d,
              entryPoint :=
                some (X.picoEntryPointF (e.vault.getD 0) (base + off)) }
        loadLoop X oracle base pad fp blockSize r (es.set i loaded) (i + 1)
          (off + (e.codeSize + pad)) (aIdx + 1)

/-- The number of loop iterations of LoadPico: the loop runs while
`i < loadUpTo && i < entryCount`, where `loadUpTo` is `entryCount` for the
`(DWORD)-1` "all entries" sentinel (modelled as `none`) and `upToEntryId+1`
otherwise. -/
def loadStop (upToEntryId : Option Nat) (entryCount : Nat) : Nat :=
  min (match upToEntryId with | none => entryCount | some k => k + 1)
    entryCount

/-- LoadPico.  `upToEntryId = none` models the `(DWORD)-1` "all entries"
sentinel, `some k` the boundary `k`.  On the ok exit `usedSize` is set to
the final running offset; on every failure exit the entries array keeps
all mutations made so far and `usedSize` is not touched. -/
def LoadPico (X : Externals) (oracle : Nat → Option Nat) (m : PicoManager)
    (upToEntryId : Option Nat) (finalPadding : Nat) : LoadRes × PicoManager :=
  if m.baseAddress.isNone || m.blockSize == 0 then (.notAllocated, m)
  else
    match loadLoop X oracle (m.baseAddress.getD 0) m.interPicoPadding
        finalPadding m.blockSize (loadStop upToEntryId m.entryCount)
        m.entries 0 0 0 with
    | (.ok, es, off) => (.ok, { m with entries := es, usedSize := off })
    | (res, es, _) => (res, { m with entries := es })

/-- The registration loop of DuplicateManager over the source catalog's
occupied slots: entries with no vault are skipped; each live entry is
re-registered into the new manager via AddPico; the first AddPico failure
fails the whole call with the new manager left as it is. -/
def dupLoop (X : Externals) : List PicoEntry → PicoManager →
    Bool × PicoManager
  | [], nm => (true, nm)
  | e :: es, nm =>
    match e.vault with
    | none => dupLoop X es nm
    | some v =>
      let r := AddPico X nm e.name v
      if r.1 then dupLoop X es r.2 else (false, r.2)

/-- DuplicateManager: initializes the new manager over the caller's backing
array, copies the padding, re-registers every live entry, then allocates a
new RWX block via PicoManagerAlloc with final padding
`entryCount * interPicoPadding` of the source.  The third component is the
`*picoBlock` output: `none` means the out-parameter was never written,
which is the case on every failure path. -/
def DuplicateManager (X : Externals) (oracle : Nat → Option Nat)
    (m : PicoManager) (entries : List PicoEntry) (entryCapacity : Nat) :
    Bool × PicoManager × Option Nat :=
  let nm0 := { PicoManagerInit entries entryCapacity with
                 interPicoPadding := m.interPicoPadding }
  match dupLoop X (m.entries.take m.entryCount) nm0 with
  | (false, nm) => (false, nm, none)
  | (true, nm) =>
    match PicoManagerAlloc oracle nm (m.entryCount * m.interPicoPadding) with
    | (false, nm1) => (false, nm1, none)
    | (true, nm1) => (true, nm1, some (nm1.baseAddress.getD 0))

/-- DestroyManager: frees the RWX block passed by the caller (the freed
addresses are returned as the third component), then zeroes the region
bookkeeping and the catalog count.  The entries array is not touched. -/
def DestroyManager (m : PicoManager) (picoBlock : Option Nat) :
    Bool × PicoManager × List Nat :=
  (true,
   { m with baseAddress := none, blockSize := 0, usedSize := 0,
            entryCount := 0 },
   picoBlock.toList)

/-- A catalog mutation: a registration or a removal by id. -/
inductive CatalogOp where
  | add (name : List Char) (vault : Nat)
  | remove (id : Nat)

/-- The state after one catalog operation (the BOOL result and, for
removal, the freed address are dropped). -/
def applyOp (X : Externals) (m : PicoManager) : CatalogOp → PicoManager
  | .add name vault => (AddPico X m name vault).2
  | .remove id => (RemovePicoById m id).2.1

/-- The state after a sequence of catalog operations. -/
def applyOps (X : Externals) (m : PicoManager) (ops : List CatalogOp) :
    PicoManager :=
  ops.foldl (applyOp X) m

/-- Model-level well-formedness: the backing array really has
`entryCapacity` slots. -/
def CatalogWf (m : PicoManager) : Prop :=
  m.entryCapacity = m.entries.length

/-- The catalog invariant of the specification: the count never exceeds the
capacity and every occupied position stores its own index as id. -/
def CatalogInv (m : PicoManager) : Prop :=
  m.entryCount ≤ m.entryCapacity ∧
  ∀ i < m.entryCount, (m.entries.getD i emptyEntry).id = i

instance : DecidablePred CatalogWf := fun m => by
  unfold CatalogWf; infer_instance

instance : DecidablePred CatalogInv := fun m => by
  unfold CatalogInv; infer_instance

/-- The entry that AddPico writes at position `pos` for a module named
`nm` with vault address `v` (used to state what registration-style
operations store). -/
def regEntry (X : Externals) (pos : Nat) (nm : List Char) (v : Nat) :
    PicoEntry :=
  { id := pos, name := truncName nm, code := none,
    codeSize := X.picoCodeSize v, data := none,
    dataSize := X.picoDataSize v, entryPoint := none, vault := some v }

/-! ## Concrete fixtures used by the example-based theorems

The measurement externals below give modules with code sizes 100, 200 and
50 for vault addresses 1, 2 and 3 (the A/B/C example of the specification),
data size 8 throughout, and an entry point equal to the code placement. -/

def exampleX : Externals :=
  { picoCodeSize := fun v => if v = 1 then 100 else if v = 2 then 200 else 50,
    picoDataSize := fun _ => 8,
    picoEntryPointF := fun _ c => c }

/-- An allocation oracle whose every request succeeds (fresh addresses
5000, 5001, ...). -/
def allocOk : Nat → Option Nat := fun i => some (5000 + i)

/-- An allocation oracle whose every request fails (VirtualAlloc returns
NULL). -/
def allocFail : Nat → Option Nat := fun _ => none

/-- Modules A (codeSize 100), B (codeSize 200) and C (codeSize 50)
registered into a fresh manager with interPicoPadding 16 (vaults at
addresses 1, 2, 3). -/
def exampleReg : PicoManager :=
  (AddPico exampleX
    (AddPico exampleX
      (AddPico exampleX
        { PicoManagerInit (List.replicate 3 emptyEntry) 3 with
            interPicoPadding := 16 }
        ['A'] 1).2
      ['B'] 2).2
    ['C'] 3).2

/-- The C1 example: the registered A/B/C catalog with a caller-allocated
executable region of total size 400 at base address 1000. -/
def mC1 : PicoManager :=
  { exampleReg with baseAddress := some 1000, blockSize := 400 }

/-- The C2 scenario: the same catalog over an undersized region of total
size 381 (= totalCodeSize - 1), with a nonzero stale usedSize from before
the call. -/
def mC2 : PicoManager :=
  { exampleReg with baseAddress := some 1000, blockSize := 381,
                    usedSize := 77 }

/-- The C3 failing input: one registered module (codeSize 100) with an
amply sized region; the data allocation will fail. -/
def mC3 : PicoManager :=
  { (AddPico exampleX
      { PicoManagerInit (List.replicate 1 emptyEntry) 1 with
          interPicoPadding := 16 }
      ['A'] 1).2 with
    baseAddress := some 1000, blockSize := 400 }

/-- The C4 counterexample catalog: a live entry (codeSize 10) followed by a
dead slot (no vault) inside the occupied prefix, padding 16. -/
def mC4 : PicoManager :=
  { PicoManagerInit
      [{ emptyEntry with codeSize := 10, vault := some 7 }, emptyEntry] 2 with
    entryCount := 2, interPicoPadding := 16 }

/-- The C5 counterexample catalog: one entry whose stored name is 31 times
the character A (as produced by registering any name of 31 or more As). -/
def mC5 : PicoManager :=
  { PicoManagerInit
      [{ emptyEntry with name := List.replicate 31 'A', vault := some 7 }]
      1 with
    entryCount := 1 }

/-- A fully loaded manager (the C1 example after a successful full load),
used by the idempotence and removal examples. -/
def mLoaded : PicoManager := (LoadPico exampleX allocOk mC1 none 0).2

/-- The C10 source manager: two live entries to duplicate. -/
def mC10 : PicoManager :=
  { exampleReg with entryCount := 2 }

/-! ## Generic list lemmas -/

theorem getD_set_ne {α : Type} (l : List α) (i j : Nat) (x d : α)
    (h : i ≠ j) : (l.set i x).getD j d = l.getD j d := by
  induction l generalizing i j with
  | nil => rfl
  | cons a as ih =>
    cases i with
    | zero =>
      cases j with
      | zero => exact absurd rfl h
      | succ j => simp [List.getD]
    | succ i =>
      cases j with
      | zero => simp [List.getD]
      | succ j =>
        simp only [List.set, List.getD_cons_succ]
        exact ih i j (fun hh => h (by omega))

theorem getD_set_self {α : Type} (l : List α) (i : Nat) (x d : α)
    (h : i < l.length) : (l.set i x).getD i d = x := by
  induction l generalizing i with
  | nil => simp at h
  | cons a as ih =>
    cases i with
    | zero => rfl
    | succ i =>
      simp only [List.set, List.getD_cons_succ]
      exact ih i (by simpa using h)

theorem getD_take_lt {α : Type} (l : List α) (n j : Nat) (d : α)
    (h : j < n) : (l.take n).getD j d = l.getD j d := by
  induction l generalizing n j with
  | nil => simp
  | cons a as ih =>
    cases n with
    | zero => omega
    | succ n =>
      cases j with
      | zero => rfl
      | succ j =>
        simp only [List.take, List.getD_cons_succ]
        exact ih n j (by omega)

theorem getD_ge {α : Type} (l : List α) (i : Nat) (d : α)
    (h : l.length ≤ i) : l.getD i d = d := by
  induction l generalizing i with
  | nil => rfl
  | cons a as ih =>
    cases i with
    | zero => simp at h
    | succ i => exact ih i (by simpa using h)

/-! ## Unfolding equations for the LoadPico loop -/

theorem loadLoop_zero (X : Externals) (oracle : Nat → Option Nat)
    (base pad fp B : Nat) (es : List PicoEntry) (i off aIdx : Nat) :
    loadLoop X oracle base pad fp B 0 es i off aIdx = (.ok, es, off) := rfl

theorem loadLoop_succ_placed (X : Externals) (oracle : Nat → Option Nat)
    (base pad fp B r : Nat) (es : List PicoEntry) (i off aIdx : Nat)
    (h : (es.getD i emptyEntry).code.isSome = true) :
    loadLoop X oracle base pad fp B (r + 1) es i off aIdx =
      loadLoop X oracle base pad fp B r es (i + 1)
        (off + ((es.getD i emptyEntry).codeSize + pad)) aIdx := by
  simp only [List.getD_eq_getElem?_getD] at h ⊢
  simp [loadLoop, h]

theorem loadLoop_succ_dead (X : Externals) (oracle : Nat → Option Nat)
    (base pad fp B r : Nat) (es : List PicoEntry) (i off aIdx : Nat)
    (hc : (es.getD i emptyEntry).code = none)
    (hv : (es.getD i emptyEntry).vault = none) :
    loadLoop X oracle base pad fp B (r + 1) es i off aIdx =
      loadLoop X oracle base pad fp B r es (i + 1) off aIdx := by
  simp only [List.getD_eq_getElem?_getD] at hc hv ⊢
  simp [loadLoop, hc, hv]

theorem loadLoop_succ_nospace (X : Externals) (oracle : Nat → Option Nat)
    (base pad fp B r : Nat) (es : List PicoEntry) (i off aIdx : Nat)
    (hc : (es.getD i emptyEntry).code = none)
    (hv : (es.getD i emptyEntry).vault.isSome = true)
    (hs : off + ((es.getD i emptyEntry).codeSize + pad) + fp > B) :
    loadLoop X oracle base pad fp B (r + 1) es i off aIdx =
      (.insufficientSpace, es, off) := by
  rw [Option.isSome_iff_exists] at hv
  obtain ⟨v, hv⟩ := hv
  simp only [List.getD_eq_getElem?_getD] at hc hv hs ⊢
  simp [loadLoop, hc, hv, hs]

theorem loadLoop_succ_allocFail (X : Externals) (oracle : Nat → Option Nat)
    (base pad fp B r : Nat) (es : List PicoEntry) (i off aIdx : Nat)
    (hc : (es.getD i emptyEntry).code = none)
    (hv : (es.getD i emptyEntry).vault.isSome = true)
    (hs : ¬ off + ((es.getD i emptyEntry).codeSize + pad) + fp > B)
    (ho : oracle aIdx = none) :
    loadLoop X oracle base pad fp B (r + 1) es i off aIdx =
      (.allocFailed,
       es.set i { es.getD i emptyEntry with code := some (base + off) },
       off) := by
  rw [Option.isSome_iff_exists] at hv
  obtain ⟨v, hv⟩ := hv
  simp only [List.getD_eq_getElem?_getD] at hc hv hs ⊢
  simp [loadLoop, hc, hv, hs, ho]

theorem loadLoop_succ_place (X : Externals) (oracle : Nat → Option Nat)
    (base pad fp B r : Nat) (es : List PicoEntry) (i off aIdx : Nat) (d : Nat)
    (hc : (es.getD i emptyEntry).code = none)
    (hv : (es.getD i emptyEntry).vault.isSome = true)
    (hs : ¬ off + ((es.getD i emptyEntry).codeSize + pad) + fp > B)
    (ho : oracle aIdx = some d) :
    loadLoop X oracle base pad fp B (r + 1) es i off aIdx =
      loadLoop X oracle base pad fp B r
        (es.set i
          { es.getD i emptyEntry with
              code := some (base + off), data := some d,
              entryPoint :=
                some (X.picoEntryPointF ((es.getD i emptyEntry).vault.getD 0)
                  (base + off)) })
        (i + 1) (off + ((es.getD i emptyEntry).codeSize + pad)) (aIdx + 1) := by
  rw [Option.isSome_iff_exists] at hv
  obtain ⟨v, hv⟩ := hv
  simp only [List.getD_eq_getElem?_getD] at hc hv hs ⊢
  simp [loadLoop, hc, hv, hs, ho]

/-! ## Structural lemmas about the LoadPico loop -/

theorem loadLoop_length (X : Externals) (oracle : Nat → Option Nat)
    (base pad fp B : Nat) :
    ∀ (r : Nat) (es : List PicoEntry) (i off aIdx : Nat),
      ((loadLoop X oracle base pad fp B r es i off aIdx).2.1).length =
        es.length := by
  intro r
  induction r with
  | zero => intro es i off a; rfl
  | succ r ih =>
    intro es i off a
    cases hcode : (es.getD i emptyEntry).code with
    | some c =>
      rw [loadLoop_succ_placed X oracle base pad fp B r es i off a
        (by rw [hcode]; rfl)]
      exact ih es (i + 1) _ a
    | none =>
      cases hv : (es.getD i emptyEntry).vault with
      | none =>
        rw [loadLoop_succ_dead X oracle base pad fp B r es i off a hcode hv]
        exact ih es (i + 1) off a
      | some v =>
        by_cases hs : off + ((es.getD i emptyEntry).codeSize + pad) + fp > B
        · rw [loadLoop_succ_nospace X oracle base pad fp B r es i off a hcode
            (by rw [hv]; rfl) hs]
        · cases ho : oracle a with
          | none =>
            rw [loadLoop_succ_allocFail X oracle base pad fp B r es i off a
              hcode (by rw [hv]; rfl) hs ho]
            exact List.length_set es i _
          | some d =>
            rw [loadLoop_succ_place X oracle base pad fp B r es i off a d
              hcode (by rw [hv]; rfl) hs ho]
            rw [ih _ (i + 1) _ _]
            exact List.length_set es i _

theorem loadLoop_getD_lt (X : Externals) (oracle : Nat → Option Nat)
    (base pad fp B : Nat) :
    ∀ (r : Nat) (es : List PicoEntry) (i off aIdx j : Nat), j < i →
      ((loadLoop X oracle base pad fp B r es i off aIdx).2.1).getD j
          emptyEntry = es.getD j emptyEntry := by
  intro r
  induction r with
  | zero => intro es i off a j hj; rfl
  | succ r ih =>
    intro es i off a j hj
    cases hcode : (es.getD i emptyEntry).code with
    | some c =>
      rw [loadLoop_succ_placed X oracle base pad fp B r es i off a
        (by rw [hcode]; rfl)]
      exact ih es (i + 1) _ a j (by omega)
    | none =>
      cases hv : (es.getD i emptyEntry).vault with
      | none =>
        rw [loadLoop_succ_dead X oracle base pad fp B r es i off a hcode hv]
        exact ih es (i + 1) off a j (by omega)
      | some v =>
        by_cases hs : off + ((es.getD i emptyEntry).codeSize + pad) + fp > B
        · rw [loadLoop_succ_nospace X oracle base pad fp B r es i off a hcode
            (by rw [hv]; rfl) hs]
        · cases ho : oracle a with
          | none =>
            rw [loadLoop_succ_allocFail X oracle base pad fp B r es i off a
              hcode (by rw [hv]; rfl) hs ho]
            exact getD_set_ne es i j _ emptyEntry (by omega)
          | some d =>
            rw [loadLoop_succ_place X oracle base pad fp B r es i off a d
              hcode (by rw [hv]; rfl) hs ho]
            rw [ih _ (i + 1) _ _ j (by omega)]
            exact getD_set_ne es i j _ emptyEntry (by omega)

theorem loadLoop_code_mono (X : Externals) (oracle : Nat → Option Nat)
    (base pad fp B : Nat) :
    ∀ (r : Nat) (es : List PicoEntry) (i off aIdx j : Nat) (c : Nat),
      (es.getD j emptyEntry).code = some c →
      (((loadLoop X oracle base pad fp B r es i off aIdx).2.1).getD j
          emptyEntry).code = some c := by
  intro r
  induction r with
  | zero => intro es i off a j c hj; exact hj
  | succ r ih =>
    intro es i off a j c hj
    cases hcode : (es.getD i emptyEntry).code with
    | some c2 =>
      rw [loadLoop_succ_placed X oracle base pad fp B r es i off a
        (by rw [hcode]; rfl)]
      exact ih es (i + 1) _ a j c hj
    | none =>
      cases hv : (es.getD i emptyEntry).vault with
      | none =>
        rw [loadLoop_succ_dead X oracle base pad fp B r es i off a hcode hv]
        exact ih es (i + 1) off a j c hj
      | some v =>
        by_cases hs : off + ((es.getD i emptyEntry).codeSize + pad) + fp > B
        · rw [loadLoop_succ_nospace X oracle base pad fp B r es i off a hcode
            (by rw [hv]; rfl) hs]
          exact hj
        · have hij : i ≠ j := by
            intro hh
            rw [hh, hj] at hcode
            exact Option.noConfusion hcode
          cases ho : oracle a with
          | none =>
            rw [loadLoop_succ_allocFail X oracle base pad fp B r es i off a
              hcode (by rw [hv]; rfl) hs ho]
            rw [getD_set_ne es i j _ emptyEntry hij]
            exact hj
          | some d =>
            rw [loadLoop_succ_place X oracle base pad fp B r es i off a d
              hcode (by rw [hv]; rfl) hs ho]
            refine ih _ (i + 1) _ _ j c ?_
            rw [getD_set_ne es i j _ emptyEntry hij]
            exact hj

theorem getD_lt_length_of_vault (es : List PicoEntry) (i : Nat)
    (hv : (es.getD i emptyEntry).vault = some vlt) : i < es.length := by
  by_contra hge
  rw [getD_ge es i emptyEntry (by omega)] at hv
  exact Option.noConfusion hv

theorem loadLoop_insuff_completed (X : Externals) (oracle : Nat → Option Nat)
    (base pad fp B : Nat) :
    ∀ (r : Nat) (es : List PicoEntry) (i off aIdx : Nat)
      (es1 : List PicoEntry) (off1 : Nat),
      loadLoop X oracle base pad fp B r es i off aIdx =
        (.insufficientSpace, es1, off1) →
      ∀ j, (es.getD j emptyEntry).code = none →
        (es1.getD j emptyEntry).code ≠ none →
        (es1.getD j emptyEntry).data.isSome = true ∧
        (es1.getD j emptyEntry).entryPoint.isSome = true := by
  intro r
  induction r with
  | zero =>
    intro es i off a es1 off1 heq
    rw [loadLoop_zero] at heq
    simp at heq
  | succ r ih =>
    intro es i off a es1 off1 heq j hj0 hj1
    cases hcode : (es.getD i emptyEntry).code with
    | some c =>
      rw [loadLoop_succ_placed X oracle base pad fp B r es i off a
        (by rw [hcode]; rfl)] at heq
      exact ih es (i + 1) _ a es1 off1 heq j hj0 hj1
    | none =>
      cases hv : (es.getD i emptyEntry).vault with
      | none =>
        rw [loadLoop_succ_dead X oracle base pad fp B r es i off a hcode hv]
          at heq
        exact ih es (i + 1) off a es1 off1 heq j hj0 hj1
      | some v =>
        by_cases hs : off + ((es.getD i emptyEntry).codeSize + pad) + fp > B
        · rw [loadLoop_succ_nospace X oracle base pad fp B r es i off a hcode
            (by rw [hv]; rfl) hs] at heq
          cases heq
          exact absurd hj0 hj1
        · cases ho : oracle a with
          | none =>
            rw [loadLoop_succ_allocFail X oracle base pad fp B r es i off a
              hcode (by rw [hv]; rfl) hs ho] at heq
            injection heq with ha hb
            exact LoadRes.noConfusion ha
          | some d =>
            rw [loadLoop_succ_place X oracle base pad fp B r es i off a d
              hcode (by rw [hv]; rfl) hs ho] at heq
            by_cases hij : j = i
            · subst hij
              have hlen : j < es.length := getD_lt_length_of_vault es j hv
              have hset :
                  ((es.set j
                    { es.getD j emptyEntry with
                        code := some (base + off), data := some d,
                        entryPoint :=
                          some (X.picoEntryPointF
                            ((es.getD j emptyEntry).vault.getD 0)
                            (base + off)) }).getD j emptyEntry) =
                    { es.getD j emptyEntry with
                        code := some (base + off), data := some d,
                        entryPoint :=
                          some (X.picoEntryPointF
                            ((es.getD j emptyEntry).vault.getD 0)
                            (base + off)) } :=
                getD_set_self es j _ emptyEntry hlen
              have hfr := loadLoop_getD_lt X oracle base pad fp B r
                (es.set j
                  { es.getD j emptyEntry with
                      code := some (base + off), data := some d,
                      entryPoint :=
                        some (X.picoEntryPointF
                          ((es.getD j emptyEntry).vault.getD 0)
                          (base + off)) })
                (j + 1) (off + ((es.getD j emptyEntry).codeSize + pad))
                (a + 1) j (by omega)
              rw [heq] at hfr
              rw [hfr, hset]
              exact ⟨rfl, rfl⟩
            · refine ih _ (i + 1) _ _ es1 off1 heq j ?_ hj1
              rw [getD_set_ne es i j _ emptyEntry (fun hh => hij hh.symm)]
              exact hj0

theorem loadLoop_replay (X : Externals) (oracle oracle2 : Nat → Option Nat)
    (base pad fp B : Nat) :
    ∀ (r : Nat) (es : List PicoEntry) (i off aIdx : Nat)
      (es1 : List PicoEntry) (off1 aIdx2 : Nat),
      loadLoop X oracle base pad fp B r es i off aIdx = (.ok, es1, off1) →
      loadLoop X oracle2 base pad fp B r es1 i off aIdx2 =
        (.ok, es1, off1) := by
  intro r
  induction r with
  | zero =>
    intro es i off a es1 off1 a2 heq
    rw [loadLoop_zero] at heq
    cases heq
    rfl
  | succ r ih =>
    intro es i off a es1 off1 a2 heq
    cases hcode : (es.getD i emptyEntry).code with
    | some c =>
      rw [loadLoop_succ_placed X oracle base pad fp B r es i off a
        (by rw [hcode]; rfl)] at heq
      have hfr := loadLoop_getD_lt X oracle base pad fp B r es (i + 1)
        (off + ((es.getD i emptyEntry).codeSize + pad)) a i (by omega)
      rw [heq] at hfr
      rw [loadLoop_succ_placed X oracle2 base pad fp B r es1 i off a2
        (by rw [hfr, hcode]; rfl)]
      rw [hfr]
      exact ih es (i + 1) _ a es1 off1 a2 heq
    | none =>
      cases hv : (es.getD i emptyEntry).vault with
      | none =>
        rw [loadLoop_succ_dead X oracle base pad fp B r es i off a hcode hv]
          at heq
        have hfr := loadLoop_getD_lt X oracle base pad fp B r es (i + 1)
          off a i (by omega)
        rw [heq] at hfr
        rw [loadLoop_succ_dead X oracle2 base pad fp B r es1 i off a2
          (by rw [hfr]; exact hcode) (by rw [hfr]; exact hv)]
        exact ih es (i + 1) off a es1 off1 a2 heq
      | some v =>
        by_cases hs : off + ((es.getD i emptyEntry).codeSize + pad) + fp > B
        · rw [loadLoop_succ_nospace X oracle base pad fp B r es i off a hcode
            (by rw [hv]; rfl) hs] at heq
          exact absurd heq (by simp)
        · cases ho : oracle a with
          | none =>
            rw [loadLoop_succ_allocFail X oracle base pad fp B r es i off a
              hcode (by rw [hv]; rfl) hs ho] at heq
            exact absurd heq (by simp)
          | some d =>
            rw [loadLoop_succ_place X oracle base pad fp B r es i off a d
              hcode (by rw [hv]; rfl) hs ho] at heq
            have hlen : i < es.length := getD_lt_length_of_vault es i hv
            have hset := getD_set_self es i
              { es.getD i emptyEntry with
                  code := some (base + off), data := some d,
                  entryPoint :=
                    some (X.picoEntryPointF
                      ((es.getD i emptyEntry).vault.getD 0) (base + off)) }
              emptyEntry hlen
            have hfr := loadLoop_getD_lt X oracle base pad fp B r
              (es.set i
                { es.getD i emptyEntry with
                    code := some (base + off), data := some d,
                    entryPoint :=
                      some (X.picoEntryPointF
                        ((es.getD i emptyEntry).vault.getD 0)
                        (base + off)) })
              (i + 1) (off + ((es.getD i emptyEntry).codeSize + pad))
              (a + 1) i (by omega)
            rw [heq] at hfr
            dsimp only at hfr hset
            rw [hset] at hfr
            rw [loadLoop_succ_placed X oracle2 base pad fp B r es1 i off a2
              (by rw [hfr]; rfl)]
            rw [hfr]
            exact ih _ (i + 1) _ (a + 1) es1 off1 a2 heq

theorem LoadPico_cases (X : Externals) (oracle : Nat → Option Nat)
    (m : PicoManager) (upTo : Option Nat) (fp : Nat) (res : LoadRes)
    (m1 : PicoManager) (h : LoadPico X oracle m upTo fp = (res, m1)) :
    ((m.baseAddress.isNone || m.blockSize == 0) = true ∧
      res = .notAllocated ∧ m1 = m) ∨
    ((m.baseAddress.isNone || m.blockSize == 0) = false ∧
      ∃ es1 off1,
        loadLoop X oracle (m.baseAddress.getD 0) m.interPicoPadding fp
          m.blockSize (loadStop upTo m.entryCount) m.entries 0 0 0 =
            (res, es1, off1) ∧
        ((res = .ok ∧ m1 = { m with entries := es1, usedSize := off1 }) ∨
         (res ≠ .ok ∧ m1 = { m with entries := es1 }))) := by
  unfold LoadPico at h
  by_cases hg : (m.baseAddress.isNone || m.blockSize == 0) = true
  · rw [if_pos hg] at h
    cases h
    exact Or.inl ⟨hg, rfl, rfl⟩
  · rw [if_neg hg] at h
    refine Or.inr ⟨Bool.eq_false_iff.mpr hg, ?_⟩
    rcases hL : loadLoop X oracle (m.baseAddress.getD 0) m.interPicoPadding
        fp m.blockSize (loadStop upTo m.entryCount) m.entries 0 0 0 with
      ⟨res2, es1, off1⟩
    rw [hL] at h
    cases res2 with
    | ok =>
      cases h
      exact ⟨es1, off1, rfl, Or.inl ⟨rfl, rfl⟩⟩
    | notAllocated =>
      cases h
      exact ⟨es1, off1, rfl, Or.inr ⟨by simp, rfl⟩⟩
    | insufficientSpace =>
      cases h
      exact ⟨es1, off1, rfl, Or.inr ⟨by simp, rfl⟩⟩
    | allocFailed =>
      cases h
      exact ⟨es1, off1, rfl, Or.inr ⟨by simp, rfl⟩⟩

/-! ## Claim theorems: the load operation -/

/-- C2: whenever a load call fails with InsufficientSpace, the failed call
leaves usedSize exactly at its pre-call value, never revokes a
codePlacement that was already set, and every entry newly placed by this
same call is committed in the returned state together with its writable
data region and entry point (partial progress is not rolled back). -/
theorem C2_insufficient_space_partial_commit
    (X : Externals) (oracle : Nat → Option Nat) (m : PicoManager)
    (upTo : Option Nat) (fp : Nat) (m1 : PicoManager)
    (h : LoadPico X oracle m upTo fp = (.insufficientSpace, m1)) :
    m1.usedSize = m.usedSize ∧
    (∀ j c, (m.entries.getD j emptyEntry).code = some c →
      (m1.entries.getD j emptyEntry).code = some c) ∧
    (∀ j, (m.entries.getD j emptyEntry).code = none →
      (m1.entries.getD j emptyEntry).code ≠ none →
      (m1.entries.getD j emptyEntry).data.isSome = true ∧
      (m1.entries.getD j emptyEntry).entryPoint.isSome = true) := by
  rcases LoadPico_cases X oracle m upTo fp _ m1 h with
    ⟨-, hres, -⟩ | ⟨-, es1, off1, hL, hcase⟩
  · exact absurd hres (by simp)
  · rcases hcase with ⟨hok, -⟩ | ⟨-, hm1⟩
    · exact absurd hok (by simp)
    · subst hm1
      refine ⟨rfl, ?_, ?_⟩
      · intro j c hj
        have hmono := loadLoop_code_mono X oracle (m.baseAddress.getD 0)
          m.interPicoPadding fp m.blockSize (loadStop upTo m.entryCount)
          m.entries 0 0 0 j c hj
        rw [hL] at hmono
        exact hmono
      · intro j hj0 hj1
        exact loadLoop_insuff_completed X oracle (m.baseAddress.getD 0)
          m.interPicoPadding fp m.blockSize (loadStop upTo m.entryCount)
          m.entries 0 0 0 es1 off1 hL j hj0 hj1

/-- Witness for C2: the A/B/C example over a region of size
totalCodeSize - 1 = 381; the call fails with InsufficientSpace and the
returned usedSize is the stale pre-call value 77. -/
theorem C2_insufficient_space_partial_commit_witness :
    ((LoadPico exampleX allocOk mC2 none 0).2).usedSize = mC2.usedSize :=
  (C2_insufficient_space_partial_commit exampleX allocOk mC2 none 0
    (LoadPico exampleX allocOk mC2 none 0).2 (by decide)).1

/-- C3: evaluation at the failing input.  One module is registered (code
size 100), the region is allocated with ample space, and the
writable-region allocation fails: the load call returns failure from the
allocation site, yet the module's codePlacement has already been assigned
while its dataRegion and entryPoint are still absent.  This contradicts
the specified invariant that codePlacement is set only for modules that
completed the load phase. -/
theorem C3_code_set_on_alloc_failure :
    (LoadPico exampleX allocFail mC3 none 0).1 = .allocFailed ∧
    ((LoadPico exampleX allocFail mC3 none 0).2.entries.getD 0
        emptyEntry).code = some 1000 ∧
    ((LoadPico exampleX allocFail mC3 none 0).2.entries.getD 0
        emptyEntry).data = none ∧
    ((LoadPico exampleX allocFail mC3 none 0).2.entries.getD 0
        emptyEntry).entryPoint = none := by
  decide

/-- C6: a second load call with the same boundary and final padding,
immediately after a successful one, succeeds and returns the very same
manager state: no entry's codePlacement, dataRegion or entryPoint changes
and usedSize keeps its value from the first call.  The second call is run
under an arbitrary allocation oracle since it performs no allocation. -/
theorem C6_load_idempotent (X : Externals) (oracle oracle2 : Nat → Option Nat)
    (m : PicoManager) (upTo : Option Nat) (fp : Nat) (m1 : PicoManager)
    (h : LoadPico X oracle m upTo fp = (.ok, m1)) :
    LoadPico X oracle2 m1 upTo fp = (.ok, m1) := by
  rcases LoadPico_cases X oracle m upTo fp _ m1 h with
    ⟨-, hres, -⟩ | ⟨hg, es1, off1, hL, hcase⟩
  · exact absurd hres (by simp)
  · rcases hcase with ⟨-, hm1⟩ | ⟨hne, -⟩
    · subst hm1
      have hrep := loadLoop_replay X oracle oracle2 (m.baseAddress.getD 0)
        m.interPicoPadding fp m.blockSize (loadStop upTo m.entryCount)
        m.entries 0 0 0 es1 off1 0 hL
      unfold LoadPico
      dsimp only
      rw [if_neg (by simp [hg])]
      rw [hrep]
    · exact absurd rfl hne

/-- Witness for C6: reloading the fully loaded A/B/C example manager with
an always-failing allocation oracle returns success with the state
unchanged. -/
theorem C6_load_idempotent_witness :
    LoadPico exampleX allocFail mLoaded none 0 = (.ok, mLoaded) :=
  C6_load_idempotent exampleX allocOk allocFail mC1 none 0 mLoaded
    (by decide)

/-- C1 counterexample: in the A/B/C example the full load succeeds, but
the resulting usedSize is 398, not the 382 the claim states (the running
offset that LoadPico stores includes one inter-module padding after the
last placed module). -/
theorem C1_usedSize_counterexample :
    (LoadPico exampleX allocOk mC1 none 0).1 = .ok ∧
    ((LoadPico exampleX allocOk mC1 none 0).2).usedSize = 398 ∧
    ((LoadPico exampleX allocOk mC1 none 0).2).usedSize ≠ 382 := by
  decide

/-- C1 amended: for the A/B/C example (codeSizes 100/200/50, padding 16),
TotalCodeSize is 382; loading ALL with finalPadding 0 into the 400-byte
region at base 1000 succeeds, placing A at region offset 0, B at 116 and C
at 332; usedSize afterwards is 398 = 382 + 16 (one trailing inter-module
padding), not 382. -/
theorem C1_example_amended :
    TotalCodeSize mC1 = 382 ∧
    (LoadPico exampleX allocOk mC1 none 0).1 = .ok ∧
    ((LoadPico exampleX allocOk mC1 none 0).2.entries.getD 0
        emptyEntry).code = some (1000 + 0) ∧
    ((LoadPico exampleX allocOk mC1 none 0).2.entries.getD 1
        emptyEntry).code = some (1000 + 116) ∧
    ((LoadPico exampleX allocOk mC1 none 0).2.entries.getD 2
        emptyEntry).code = some (1000 + 332) ∧
    ((LoadPico exampleX allocOk mC1 none 0).2).usedSize = 398 := by
  decide

/-! ## Claim theorems: TotalCodeSize -/

theorem totalAux_closed (pad : Nat) :
    ∀ l : List PicoEntry,
      totalAux pad l =
        ((l.filter (fun e => e.vault.isSome)).map PicoEntry.codeSize).sum +
          pad * (l.dropLast.countP (fun e => e.vault.isSome)) := by
  intro l
  induction l with
  | nil => rfl
  | cons e es ih =>
    cases es with
    | nil =>
      by_cases hv : e.vault.isSome = true
      · simp [totalAux, hv]
      · simp [totalAux, hv]
    | cons e2 es2 =>
      by_cases hv : e.vault.isSome = true
      · simp only [totalAux, hv, if_true, ih, List.filter_cons, List.map_cons,
          List.sum_cons, List.dropLast_cons₂, List.countP_cons, hv]
        ring
      · simp only [totalAux, hv, if_false, ih, List.filter_cons,
          List.dropLast_cons₂, List.countP_cons, hv, Bool.false_eq_true]
        simp [hv]

/-- C4 amended: TotalCodeSize is the sum of codeSize over the occupied
entries with a live vault, plus one interPicoPadding for every live entry
whose position is not the last occupied position.  (The source adds the
padding whenever `i < entryCount - 1`, so a live entry followed only by
dead slots still contributes a padding; the claim's "one padding per
adjacent pair of live entries" only coincides with this when the last
occupied position is live.) -/
theorem C4_totalCodeSize_amended (m : PicoManager) :
    TotalCodeSize m =
      ((liveEntries m).map PicoEntry.codeSize).sum +
        m.interPicoPadding *
          ((m.entries.take m.entryCount).dropLast.countP
            (fun e => e.vault.isSome)) :=
  totalAux_closed m.interPicoPadding (m.entries.take m.entryCount)

/-- C4 counterexample: for the catalog [live (codeSize 10), dead slot]
with padding 16, TotalCodeSize is 26, while the claim's formula - sum of
live codeSizes plus one padding per adjacent pair of live entries, that is
(number of live entries - 1) paddings = 10 + 16*0 - gives 10. -/
theorem C4_totalCodeSize_counterexample :
    TotalCodeSize mC4 = 26 ∧
    ((liveEntries mC4).map PicoEntry.codeSize).sum +
      mC4.interPicoPadding * ((liveEntries mC4).length - 1) = 10 ∧
    TotalCodeSize mC4 ≠
      ((liveEntries mC4).map PicoEntry.codeSize).sum +
        mC4.interPicoPadding * ((liveEntries mC4).length - 1) := by
  decide

/-! ## Claim theorems: name lookup -/

theorem strncmpEq_full (q : List Char) :
    ∀ stored : List Char,
      (strncmpEq stored q q.length = true ∧ stored.length ≤ q.length) ↔
        stored = q := by
  induction q with
  | nil =>
    intro stored
    cases stored with
    | nil => simp [strncmpEq]
    | cons a as => simp [strncmpEq]
  | cons b bs ih =>
    intro stored
    cases stored with
    | nil => simp [strncmpEq]
    | cons a as =>
      simp only [List.length_cons, strncmpEq, Bool.and_eq_true, beq_iff_eq,
        Nat.add_le_add_iff_right, List.cons.injEq]
      constructor
      · rintro ⟨⟨hab, hcmp⟩, hlen⟩
        exact ⟨hab, (ih as).mp ⟨hcmp, hlen⟩⟩
      · rintro ⟨hab, has⟩
        obtain ⟨hcmp, hlen⟩ := (ih as).mpr has
        exact ⟨⟨hab, hcmp⟩, hlen⟩

theorem nameMatches_short_iff (stored q : List Char)
    (h : q.length < PICO_NAME_MAX_LENGTH) :
    nameMatches stored q = true ↔ stored = q := by
  have hmin : min q.length (PICO_NAME_MAX_LENGTH - 1) = q.length := by
    have : PICO_NAME_MAX_LENGTH = 32 := rfl
    omega
  unfold nameMatches
  rw [hmin]
  rw [Bool.and_eq_true, decide_eq_true_iff]
  exact strncmpEq_full q stored

theorem findPicoName_some_iff (q : List Char) :
    ∀ (l : List PicoEntry) (s i : Nat),
      findPicoName q l s = some i ↔
        (s ≤ i ∧ i - s < l.length ∧
         nameMatches ((l.getD (i - s) emptyEntry).name) q = true ∧
         ∀ t, t < i - s →
           nameMatches ((l.getD t emptyEntry).name) q = false) := by
  intro l
  induction l with
  | nil =>
    intro s i
    simp [findPicoName]
  | cons e es ih =>
    intro s i
    by_cases hm : nameMatches e.name q = true
    · simp only [findPicoName, hm, if_true]
      constructor
      · intro hsi
        cases hsi
        exact ⟨Nat.le_refl s, by simp, by simpa using hm, by omega⟩
      · rintro ⟨hle, -, -, hmin⟩
        by_cases his : i = s
        · rw [his]
        · have h0 : (0 : Nat) < i - s := by omega
          have := hmin 0 h0
          rw [List.getD_cons_zero] at this
          rw [this] at hm
          exact Bool.noConfusion hm
    · have hm2 : nameMatches e.name q = false := Bool.eq_false_iff.mpr hm
      simp only [findPicoName, hm2, Bool.false_eq_true, if_false]
      rw [ih (s + 1) i]
      constructor
      · rintro ⟨hle, hlt, hmat, hmin⟩
        refine ⟨by omega, by simp; omega, ?_, ?_⟩
        · have : i - s = (i - (s + 1)) + 1 := by omega
          rw [this, List.getD_cons_succ]
          exact hmat
        · intro t ht
          cases t with
          | zero =>
            rw [List.getD_cons_zero]
            exact Bool.eq_false_iff.mpr hm
          | succ t =>
            rw [List.getD_cons_succ]
            exact hmin t (by omega)
      · rintro ⟨hle, hlt, hmat, hmin⟩
        have hne : i ≠ s := by
          intro hh
          rw [hh] at hmat
          simp at hmat
          rw [hmat] at hm
          exact hm rfl
        refine ⟨by omega, by simp at hlt; omega, ?_, ?_⟩
        · have : i - s = (i - (s + 1)) + 1 := by omega
          rw [this, List.getD_cons_succ] at hmat
          exact hmat
        · intro t ht
          have := hmin (t + 1) (by omega)
          rw [List.getD_cons_succ] at this
          exact this

theorem findPicoName_none_iff (q : List Char) :
    ∀ (l : List PicoEntry) (s : Nat),
      findPicoName q l s = none ↔
        ∀ t, t < l.length →
          nameMatches ((l.getD t emptyEntry).name) q = false := by
  intro l
  induction l with
  | nil => intro s; simp [findPicoName]
  | cons e es ih =>
    intro s
    by_cases hm : nameMatches e.name q = true
    · simp only [findPicoName, hm, if_true]
      constructor
      · intro hh; exact Option.noConfusion hh
      · intro hall
        have := hall 0 (by simp)
        rw [List.getD_cons_zero] at this
        rw [this] at hm
        exact Bool.noConfusion hm
    · have hm2 : nameMatches e.name q = false := Bool.eq_false_iff.mpr hm
      simp only [findPicoName, hm2, Bool.false_eq_true, if_false]
      rw [ih (s + 1)]
      constructor
      · intro hall t ht
        cases t with
        | zero =>
          rw [List.getD_cons_zero]
          exact Bool.eq_false_iff.mpr hm
        | succ t =>
          rw [List.getD_cons_succ]
          exact hall t (by simpa using ht)
      · intro hall t ht
        have := hall (t + 1) (by simpa using ht)
        rw [List.getD_cons_succ] at this
        exact this

/-- C5 amended: for every query strictly shorter than the maximum name
length (32), name lookup is case-sensitive exact match on length and
content against the stored name, returns the position of the first match
in catalog order, and returns absent when no stored name equals the query.
For queries of length 32 or more the lookup instead compares only the
first 31 characters (the query is truncated to the stored-name capacity),
so such a query can match an entry whose stored name differs from it. -/
theorem C5_getByName_exact_short (m : PicoManager) (q : List Char) (i : Nat)
    (hq : q.length < PICO_NAME_MAX_LENGTH)
    (hcnt : m.entryCount ≤ m.entries.length) :
    (GetPicoByName m q = some i ↔
      (i < m.entryCount ∧ (m.entries.getD i emptyEntry).name = q ∧
       ∀ j, j < i → (m.entries.getD j emptyEntry).name ≠ q)) ∧
    (GetPicoByName m q = none ↔
      ∀ j, j < m.entryCount → (m.entries.getD j emptyEntry).name ≠ q) := by
  have hlen : (m.entries.take m.entryCount).length = m.entryCount := by
    simp [List.length_take]
    omega
  constructor
  · rw [GetPicoByName, findPicoName_some_iff q (m.entries.take m.entryCount) 0 i]
    rw [hlen]
    constructor
    · rintro ⟨-, hi, hmat, hmin⟩
      rw [Nat.sub_zero] at hi hmat hmin
      rw [getD_take_lt m.entries m.entryCount i emptyEntry hi] at hmat
      refine ⟨hi, (nameMatches_short_iff _ q hq).mp hmat, ?_⟩
      intro j hj hname
      have := hmin j hj
      rw [getD_take_lt m.entries m.entryCount j emptyEntry (by omega)] at this
      rw [(nameMatches_short_iff _ q hq).mpr hname] at this
      exact Bool.noConfusion this
    · rintro ⟨hi, hname, hmin⟩
      refine ⟨Nat.zero_le i, by rwa [Nat.sub_zero], ?_, ?_⟩
      · rw [Nat.sub_zero,
          getD_take_lt m.entries m.entryCount i emptyEntry hi]
        exact (nameMatches_short_iff _ q hq).mpr hname
      · intro t ht
        rw [Nat.sub_zero] at ht
        rw [getD_take_lt m.entries m.entryCount t emptyEntry (by omega)]
        rw [Bool.eq_false_iff]
        intro hmt
        exact hmin t ht ((nameMatches_short_iff _ q hq).mp hmt)
  · rw [GetPicoByName, findPicoName_none_iff q (m.entries.take m.entryCount) 0]
    rw [hlen]
    constructor
    · intro hall j hj hname
      have := hall j hj
      rw [getD_take_lt m.entries m.entryCount j emptyEntry hj] at this
      rw [(nameMatches_short_iff _ q hq).mpr hname] at this
      exact Bool.noConfusion this
    · intro hall t ht
      rw [getD_take_lt m.entries m.entryCount t emptyEntry ht]
      rw [Bool.eq_false_iff]
      intro hmt
      exact hall t ht ((nameMatches_short_iff _ q hq).mp hmt)

/-- Witness for C5: looking up a 30-character query that matches no stored
name returns absent. -/
theorem C5_getByName_exact_short_witness :
    GetPicoByName mC5 (List.replicate 30 'A') = none :=
  ((C5_getByName_exact_short mC5 (List.replicate 30 'A') 0 (by decide)
    (by decide)).2).mpr (by decide)

/-- C5 counterexample: the catalog stores the 31-character name AAA...A;
the 32-character query AAA...A is not identical to it, yet lookup returns
that entry (the query is truncated to 31 characters before comparison), so
the claimed exact-match property fails for queries at least as long as the
maximum name length. -/
theorem C5_getByName_counterexample :
    GetPicoByName mC5 (List.replicate 32 'A') = some 0 ∧
    (mC5.entries.getD 0 emptyEntry).name ≠ List.replicate 32 'A' := by
  decide

/-! ## Claim theorems: removal -/

theorem shiftDown_length :
    ∀ (r i : Nat) (es : List PicoEntry),
      (shiftDown r i es).length = es.length := by
  intro r
  induction r with
  | zero => intro i es; rfl
  | succ r ih =>
    intro i es
    rw [shiftDown, ih (i + 1)]
    exact List.length_set es i _

theorem shiftDown_getD_lt :
    ∀ (r i : Nat) (es : List PicoEntry) (j : Nat), j < i →
      (shiftDown r i es).getD j emptyEntry = es.getD j emptyEntry := by
  intro r
  induction r with
  | zero => intro i es j hj; rfl
  | succ r ih =>
    intro i es j hj
    rw [shiftDown, ih (i + 1) _ j (by omega)]
    exact getD_set_ne es i j _ emptyEntry (by omega)

theorem shiftDown_getD_ge :
    ∀ (r i : Nat) (es : List PicoEntry) (j : Nat), i + r ≤ j →
      (shiftDown r i es).getD j emptyEntry = es.getD j emptyEntry := by
  intro r
  induction r with
  | zero => intro i es j hj; rfl
  | succ r ih =>
    intro i es j hj
    rw [shiftDown, ih (i + 1) _ j (by omega)]
    exact getD_set_ne es i j _ emptyEntry (by omega)

theorem shiftDown_getD_in :
    ∀ (r i : Nat) (es : List PicoEntry) (j : Nat),
      i ≤ j → j < i + r → i + r ≤ es.length →
      (shiftDown r i es).getD j emptyEntry =
        { es.getD (j + 1) emptyEntry with id := j } := by
  intro r
  induction r with
  | zero => intro i es j h1 h2 h3; omega
  | succ r ih =>
    intro i es j h1 h2 h3
    rw [shiftDown]
    by_cases hji : j = i
    · subst hji
      rw [shiftDown_getD_lt r (j + 1) _ j (by omega)]
      exact getD_set_self es j _ emptyEntry (by omega)
    · rw [ih (i + 1) _ j (by omega) (by omega)
        (by rw [List.length_set]; omega)]
      rw [getD_set_ne es i (j + 1) _ emptyEntry (by omega)]

/-- C7: removing position k from a catalog of n = entryCount entries,
where the backing array really holds the occupied prefix
(entryCount ≤ length): for k < n the call succeeds, returns the removed
entry's data region as the freed allocation, decrements the count, leaves
every position before k untouched, moves the former occupants of
k+1..n-1 to k..n-2 with id rewritten to the new position and all other
fields preserved, and zeroes the vacated slot n-1.  For k ≥ n the call
fails and changes nothing (and frees nothing). -/
theorem C7_removeById_spec (m : PicoManager) (k : Nat)
    (hcnt : m.entryCount ≤ m.entries.length) :
    (m.entryCount ≤ k → RemovePicoById m k = (false, m, none)) ∧
    (k < m.entryCount →
      (RemovePicoById m k).1 = true ∧
      (RemovePicoById m k).2.2 = (m.entries.getD k emptyEntry).data ∧
      (RemovePicoById m k).2.1.entryCount = m.entryCount - 1 ∧
      (∀ j, j < k →
        (RemovePicoById m k).2.1.entries.getD j emptyEntry =
          m.entries.getD j emptyEntry) ∧
      (∀ j, k ≤ j → j < m.entryCount - 1 →
        (RemovePicoById m k).2.1.entries.getD j emptyEntry =
          { m.entries.getD (j + 1) emptyEntry with id := j }) ∧
      (RemovePicoById m k).2.1.entries.getD (m.entryCount - 1) emptyEntry =
        emptyEntry) := by
  constructor
  · intro hk
    rw [RemovePicoById, if_pos hk]
  · intro hk
    rw [RemovePicoById, if_neg (by omega)]
    refine ⟨rfl, rfl, rfl, ?_, ?_, ?_⟩
    · intro j hj
      show ((shiftDown (m.entryCount - 1 - k) k
          (m.entries.set k
            { m.entries.getD k emptyEntry with data := none })).set
          (m.entryCount - 1) emptyEntry).getD j emptyEntry =
        m.entries.getD j emptyEntry
      rw [getD_set_ne _ (m.entryCount - 1) j emptyEntry emptyEntry (by omega)]
      rw [shiftDown_getD_lt (m.entryCount - 1 - k) k _ j (by omega)]
      exact getD_set_ne m.entries k j _ emptyEntry (by omega)
    · intro j hjk hj
      show ((shiftDown (m.entryCount - 1 - k) k
          (m.entries.set k
            { m.entries.getD k emptyEntry with data := none })).set
          (m.entryCount - 1) emptyEntry).getD j emptyEntry =
        { m.entries.getD (j + 1) emptyEntry with id := j }
      rw [getD_set_ne _ (m.entryCount - 1) j emptyEntry emptyEntry (by omega)]
      rw [shiftDown_getD_in (m.entryCount - 1 - k) k _ j hjk (by omega)
        (by rw [List.length_set]; omega)]
      rw [getD_set_ne m.entries k (j + 1) _ emptyEntry (by omega)]
    · show ((shiftDown (m.entryCount - 1 - k) k
          (m.entries.set k
            { m.entries.getD k emptyEntry with data := none })).set
          (m.entryCount - 1) emptyEntry).getD (m.entryCount - 1) emptyEntry =
        emptyEntry
      refine getD_set_self _ (m.entryCount - 1) emptyEntry emptyEntry ?_
      rw [shiftDown_length, List.length_set]
      omega

/-- Witness for C7: removing position 1 (module B) from the loaded A/B/C
example catalog frees B's writable region (address 5001). -/
theorem C7_removeById_spec_witness :
    (RemovePicoById mLoaded 1).2.2 =
      (mLoaded.entries.getD 1 emptyEntry).data :=
  ((C7_removeById_spec mLoaded 1 (by decide)).2 (by decide)).2.1

/-! ## Claim theorems: catalog invariant -/

theorem AddPico_preserves_inv (X : Externals) (m : PicoManager)
    (name : List Char) (vault : Nat) (hwf : CatalogWf m)
    (hinv : CatalogInv m) :
    CatalogWf (AddPico X m name vault).2 ∧
    CatalogInv (AddPico X m name vault).2 := by
  by_cases hfull : m.entryCount ≥ m.entryCapacity
  · rw [AddPico, if_pos hfull]
    exact ⟨hwf, hinv⟩
  · rw [AddPico, if_neg hfull]
    refine ⟨?_, ?_, ?_⟩
    · show m.entryCapacity = (m.entries.set m.entryCount _).length
      rw [List.length_set]
      exact hwf
    · show m.entryCount + 1 ≤ m.entryCapacity
      omega
    · intro i hi
      show ((m.entries.set m.entryCount _).getD i emptyEntry).id = i
      by_cases hic : i = m.entryCount
      · subst hic
        rw [getD_set_self m.entries m.entryCount _ emptyEntry
          (by rw [← hwf]; omega)]
      · rw [getD_set_ne m.entries m.entryCount i _ emptyEntry
          (fun hh => hic hh.symm)]
        exact hinv.2 i (by simp at hi; omega)

theorem RemovePicoById_preserves_inv (m : PicoManager) (k : Nat)
    (hwf : CatalogWf m) (hinv : CatalogInv m) :
    CatalogWf (RemovePicoById m k).2.1 ∧
    CatalogInv (RemovePicoById m k).2.1 := by
  by_cases hk : k ≥ m.entryCount
  · rw [RemovePicoById, if_pos hk]
    exact ⟨hwf, hinv⟩
  · rw [RemovePicoById, if_neg hk]
    have hcnt : m.entryCount ≤ m.entries.length := by
      rw [← hwf]; exact hinv.1
    refine ⟨?_, ?_, ?_⟩
    · show m.entryCapacity =
        ((shiftDown (m.entryCount - 1 - k) k
          (m.entries.set k
            { m.entries.getD k emptyEntry with data := none })).set
          (m.entryCount - 1) emptyEntry).length
      rw [List.length_set, shiftDown_length, List.length_set]
      exact hwf
    · show m.entryCount - 1 ≤ m.entryCapacity
      have := hinv.1
      omega
    · intro i hi
      show (((shiftDown (m.entryCount - 1 - k) k
          (m.entries.set k
            { m.entries.getD k emptyEntry with data := none })).set
          (m.entryCount - 1) emptyEntry).getD i emptyEntry).id = i
      have hi2 : i < m.entryCount - 1 := hi
      rw [getD_set_ne _ (m.entryCount - 1) i emptyEntry emptyEntry (by omega)]
      by_cases hik : i < k
      · rw [shiftDown_getD_lt (m.entryCount - 1 - k) k _ i hik]
        rw [getD_set_ne m.entries k i _ emptyEntry (by omega)]
        exact hinv.2 i (by omega)
      · rw [shiftDown_getD_in (m.entryCount - 1 - k) k _ i (by omega)
          (by omega) (by rw [List.length_set]; omega)]

theorem applyOp_preserves_inv (X : Externals) (m : PicoManager)
    (op : CatalogOp) (hwf : CatalogWf m) (hinv : CatalogInv m) :
    CatalogWf (applyOp X m op) ∧ CatalogInv (applyOp X m op) := by
  cases op with
  | add name vault => exact AddPico_preserves_inv X m name vault hwf hinv
  | remove id => exact RemovePicoById_preserves_inv m id hwf hinv

theorem applyOps_preserves_inv (X : Externals) :
    ∀ (ops : List CatalogOp) (m : PicoManager),
      CatalogWf m → CatalogInv m →
      CatalogWf (applyOps X m ops) ∧ CatalogInv (applyOps X m ops) := by
  intro ops
  induction ops with
  | nil => intro m hwf hinv; exact ⟨hwf, hinv⟩
  | cons op rest ih =>
    intro m hwf hinv
    obtain ⟨hwf2, hinv2⟩ := applyOp_preserves_inv X m op hwf hinv
    exact ih (applyOp X m op) hwf2 hinv2

theorem applyOps_adds_count (X : Externals) :
    ∀ (adds : List (List Char × Nat)) (m : PicoManager),
      CatalogWf m → m.entryCount + adds.length ≤ m.entryCapacity →
      (applyOps X m
        (adds.map (fun p => CatalogOp.add p.1 p.2))).entryCount =
        m.entryCount + adds.length := by
  intro adds
  induction adds with
  | nil => intro m hwf hle; rfl
  | cons p rest ih =>
    intro m hwf hle
    simp only [List.map_cons, applyOps, List.foldl_cons]
    have hnotfull : ¬ m.entryCount ≥ m.entryCapacity := by
      simp only [List.length_cons] at hle
      omega
    have hstep : applyOp X m (CatalogOp.add p.1 p.2) =
        { m with
            entries := m.entries.set m.entryCount
              { id := m.entryCount, name := truncName p.1, code := none,
                codeSize := X.picoCodeSize p.2, data := none,
                dataSize := X.picoDataSize p.2, entryPoint := none,
                vault := some p.2 },
            entryCount := m.entryCount + 1 } := by
      show (AddPico X m p.1 p.2).2 = _
      rw [AddPico, if_neg hnotfull]
    rw [show (List.foldl (applyOp X) (applyOp X m (CatalogOp.add p.1 p.2))
          (rest.map (fun p => CatalogOp.add p.1 p.2))) =
        applyOps X (applyOp X m (CatalogOp.add p.1 p.2))
          (rest.map (fun p => CatalogOp.add p.1 p.2)) from rfl]
    rw [hstep]
    rw [ih _ (by show m.entryCapacity = (m.entries.set _ _).length
                 rw [List.length_set]; exact hwf)
          (by show m.entryCount + 1 + rest.length ≤ m.entryCapacity
              simp only [List.length_cons] at hle; omega)]
    simp only [List.length_cons]
    omega

/-- C8: starting from any well-formed catalog state satisfying the
invariant (count ≤ capacity and entries[i].id = i for every occupied i),
every sequence of register and remove operations preserves it; and for a
sequence consisting only of registrations not exceeding capacity, starting
from an initialized manager, the final count equals the number of
registrations (each one succeeds). -/
theorem C8_catalog_invariant (X : Externals) (m : PicoManager)
    (ops : List CatalogOp) (hwf : CatalogWf m) (hinv : CatalogInv m) :
    (CatalogWf (applyOps X m ops) ∧ CatalogInv (applyOps X m ops)) ∧
    (∀ (cap : Nat) (adds : List (List Char × Nat)), adds.length ≤ cap →
      (applyOps X (PicoManagerInit (List.replicate cap emptyEntry) cap)
        (adds.map (fun p => CatalogOp.add p.1 p.2))).entryCount =
        adds.length) := by
  refine ⟨applyOps_preserves_inv X ops m hwf hinv, ?_⟩
  intro cap adds hle
  have := applyOps_adds_count X adds
    (PicoManagerInit (List.replicate cap emptyEntry) cap)
    (by show cap = (List.replicate cap emptyEntry).length; simp)
    (by show 0 + adds.length ≤ cap; omega)
  rw [this]
  simp [PicoManagerInit]

/-- Witness for C8: applying a removal and then a registration to the
A/B/C catalog keeps the invariant. -/
theorem C8_catalog_invariant_witness :
    CatalogWf (applyOps exampleX exampleReg
        [CatalogOp.remove 1, CatalogOp.add [] 4]) ∧
    CatalogInv (applyOps exampleX exampleReg
        [CatalogOp.remove 1, CatalogOp.add [] 4]) :=
  (C8_catalog_invariant exampleX exampleReg
    [CatalogOp.remove 1, CatalogOp.add [] 4]
    (by decide) (by decide)).1

/-! ## Claim theorems: teardown and duplication -/

/-- C9: destroying a manager frees exactly the executable-region handle
passed by the caller and nothing else, resets base address, block size,
used size and catalog count to empty/zero, and leaves the entries array -
including every entry's dataRegion pointer and every vault pointer -
completely untouched. -/
theorem C9_destroy_frame (m : PicoManager) (picoBlock : Option Nat) :
    DestroyManager m picoBlock =
      (true,
       { m with baseAddress := none, blockSize := 0, usedSize := 0,
                entryCount := 0 },
       picoBlock.toList) ∧
    (DestroyManager m picoBlock).2.1.entries = m.entries ∧
    (∀ a, a ∈ (DestroyManager m picoBlock).2.2 → picoBlock = some a) := by
  refine ⟨rfl, rfl, ?_⟩
  intro a ha
  cases picoBlock with
  | none => simp [DestroyManager] at ha
  | some b =>
    simp [DestroyManager, Option.toList] at ha
    rw [ha]

theorem dupLoop_spec (X : Externals) :
    ∀ (l : List PicoEntry) (nm : PicoManager),
      CatalogWf nm → nm.entryCount ≤ nm.entryCapacity →
      (dupLoop X l nm).2.baseAddress = nm.baseAddress ∧
      (dupLoop X l nm).2.blockSize = nm.blockSize ∧
      (dupLoop X l nm).2.usedSize = nm.usedSize ∧
      (dupLoop X l nm).2.entryCapacity = nm.entryCapacity ∧
      (dupLoop X l nm).2.interPicoPadding = nm.interPicoPadding ∧
      (dupLoop X l nm).2.entryCount =
        min (nm.entryCount + (l.filter (fun e => e.vault.isSome)).length)
          nm.entryCapacity ∧
      ((dupLoop X l nm).1 = true ↔
        nm.entryCount + (l.filter (fun e => e.vault.isSome)).length ≤
          nm.entryCapacity) ∧
      (∀ j, j < nm.entryCount →
        (dupLoop X l nm).2.entries.getD j emptyEntry =
          nm.entries.getD j emptyEntry) ∧
      (∀ j, nm.entryCount ≤ j → j < (dupLoop X l nm).2.entryCount →
        (dupLoop X l nm).2.entries.getD j emptyEntry =
          regEntry X j
            (((l.filter (fun e => e.vault.isSome)).getD
              (j - nm.entryCount) emptyEntry).name)
            (((l.filter (fun e => e.vault.isSome)).getD
              (j - nm.entryCount) emptyEntry).vault.getD 0)) := by
  intro l
  induction l with
  | nil =>
    intro nm hwf hcnt
    have hd : dupLoop X [] nm = (true, nm) := rfl
    rw [hd]
    dsimp only
    refine ⟨rfl, rfl, rfl, rfl, rfl,
      by simp only [List.filter_nil, List.length_nil, Nat.add_zero]; omega,
      by simp only [List.filter_nil, List.length_nil, Nat.add_zero]
         simp [hcnt],
      fun j hj => rfl, fun j hj1 hj2 => ?_⟩
    simp only [List.filter_nil, List.length_nil] at hj2 ⊢
    omega
  | cons e es ih =>
    intro nm hwf hcnt
    cases hv : e.vault with
    | none =>
      have hfilter : (e :: es).filter (fun e => e.vault.isSome) =
          es.filter (fun e => e.vault.isSome) := by
        simp [List.filter_cons, hv]
      have hstep : dupLoop X (e :: es) nm = dupLoop X es nm := by
        rw [dupLoop, hv]
      rw [hstep, hfilter]
      exact ih nm hwf hcnt
    | some v =>
      have hfilter : (e :: es).filter (fun e => e.vault.isSome) =
          e :: es.filter (fun e => e.vault.isSome) := by
        simp [List.filter_cons, hv]
      by_cases hfull : nm.entryCount ≥ nm.entryCapacity
      · have hstep : dupLoop X (e :: es) nm = (false, nm) := by
          rw [dupLoop, hv]
          dsimp only
          rw [AddPico, if_pos hfull]
          simp
        rw [hstep, hfilter]
        dsimp only
        refine ⟨rfl, rfl, rfl, rfl, rfl, ?_, ?_, fun j hj => rfl,
          fun j hj1 hj2 => by omega⟩
        · simp only [List.length_cons]
          omega
        · simp only [List.length_cons]
          constructor
          · intro hh
            exact absurd hh (by simp)
          · intro hh
            omega
      · have haddeq : AddPico X nm e.name v =
            (true,
             { nm with
                 entries := nm.entries.set nm.entryCount
                   (regEntry X nm.entryCount e.name v),
                 entryCount := nm.entryCount + 1 }) := by
          rw [AddPico, if_neg hfull]
          rfl
        have hstep : dupLoop X (e :: es) nm =
            dupLoop X es
              { nm with
                  entries := nm.entries.set nm.entryCount
                    (regEntry X nm.entryCount e.name v),
                  entryCount := nm.entryCount + 1 } := by
          rw [dupLoop, hv]
          dsimp only
          rw [haddeq]
          simp
        set nm2 : PicoManager :=
          { nm with
              entries := nm.entries.set nm.entryCount
                (regEntry X nm.entryCount e.name v),
              entryCount := nm.entryCount + 1 } with hnm2
        have hc2 : nm2.entryCount = nm.entryCount + 1 := rfl
        have hcap2 : nm2.entryCapacity = nm.entryCapacity := rfl
        have hwf2 : CatalogWf nm2 := by
          show nm.entryCapacity = (nm.entries.set nm.entryCount _).length
          rw [List.length_set]
          exact hwf
        have hcnt2 : nm2.entryCount ≤ nm2.entryCapacity := by
          rw [hc2, hcap2]
          omega
        obtain ⟨hb, hbs, hus, hcap, hpad, hcount, hok, hpres, hnew⟩ :=
          ih nm2 hwf2 hcnt2
        rw [hstep, hfilter]
        refine ⟨hb, hbs, hus, by rw [hcap, hcap2],
          by rw [hpad], ?_, ?_, ?_, ?_⟩
        · rw [hcount, hc2, hcap2]
          simp only [List.length_cons]
          omega
        · rw [hok, hc2, hcap2]
          simp only [List.length_cons]
          omega
        · intro j hj
          rw [hpres j (by rw [hc2]; omega)]
          show (nm.entries.set nm.entryCount _).getD j emptyEntry = _
          exact getD_set_ne nm.entries nm.entryCount j _ emptyEntry
            (by omega)
        · intro j hj1 hj2
          by_cases hje : j = nm.entryCount
          · subst hje
            rw [hpres nm.entryCount (by rw [hc2]; omega)]
            have hsetv : nm2.entries.getD nm.entryCount emptyEntry =
                regEntry X nm.entryCount e.name v := by
              show (nm.entries.set nm.entryCount _).getD nm.entryCount
                  emptyEntry = _
              refine getD_set_self nm.entries nm.entryCount _ emptyEntry ?_
              rw [← hwf]
              omega
            rw [hsetv]
            simp [hv]
          · have hge : nm2.entryCount ≤ j := by
              rw [hc2]
              omega
            rw [hnew j hge hj2]
            have hidx : j - nm.entryCount = (j - nm2.entryCount) + 1 := by
              rw [hc2]
              omega
            rw [hidx, List.getD_cons_succ]

/-- C10: when duplication fails partway, nothing is rolled back.  If the
new capacity is smaller than the number of live source entries, the call
returns failure with the new manager still initialized and holding the
first newCapacity re-registered live entries, no executable region
(base address null, block and used size zero) and the output block pointer
unwritten; if registration fits but the executable-region allocation
fails, the call returns failure with all live entries re-registered, the
base address null and the output pointer unwritten. -/
theorem C10_duplicate_no_rollback (X : Externals) (oracle : Nat → Option Nat)
    (m : PicoManager) (backing : List PicoEntry) (cap : Nat)
    (hcap : cap = backing.length) :
    (cap < (liveEntries m).length →
      ∃ nm, DuplicateManager X oracle m backing cap = (false, nm, none) ∧
        nm.entryCount = cap ∧ nm.baseAddress = none ∧ nm.blockSize = 0 ∧
        nm.usedSize = 0 ∧ nm.interPicoPadding = m.interPicoPadding ∧
        (∀ j, j < cap → nm.entries.getD j emptyEntry =
          regEntry X j (((liveEntries m).getD j emptyEntry).name)
            (((liveEntries m).getD j emptyEntry).vault.getD 0))) ∧
    ((liveEntries m).length ≤ cap → (∀ s, oracle s = none) →
      ∃ nm, DuplicateManager X oracle m backing cap = (false, nm, none) ∧
        nm.entryCount = (liveEntries m).length ∧ nm.baseAddress = none ∧
        nm.blockSize = 0 ∧ nm.usedSize = 0 ∧
        nm.interPicoPadding = m.interPicoPadding ∧
        (∀ j, j < (liveEntries m).length →
          nm.entries.getD j emptyEntry =
            regEntry X j (((liveEntries m).getD j emptyEntry).name)
              (((liveEntries m).getD j emptyEntry).vault.getD 0))) := by
  rcases hD : dupLoop X (m.entries.take m.entryCount)
      { PicoManagerInit backing cap with
          interPicoPadding := m.interPicoPadding } with ⟨ok, nm⟩
  obtain ⟨hb, hbs, hus, hcapx, hpad, hcount, hok, hpres, hnew⟩ :=
    dupLoop_spec X (m.entries.take m.entryCount)
      { PicoManagerInit backing cap with
          interPicoPadding := m.interPicoPadding }
      hcap (Nat.zero_le cap)
  rw [hD] at hb hbs hus hcapx hpad hcount hok hnew
  dsimp only [PicoManagerInit] at hb hbs hus hcapx hpad hcount hok hnew
  have hfold : (m.entries.take m.entryCount).filter
      (fun e => e.vault.isSome) = liveEntries m := rfl
  rw [hfold] at hcount hok hnew
  simp only [Nat.zero_add, Nat.sub_zero] at hcount hok hnew
  constructor
  · intro hlt
    have hokf : ok = false := by
      cases ok with
      | false => rfl
      | true =>
        have := hok.mp rfl
        omega
    subst hokf
    refine ⟨nm, ?_, by omega, hb, hbs, hus, hpad, ?_⟩
    · unfold DuplicateManager
      dsimp only
      rw [hD]
    · intro j hj
      have := hnew j (Nat.zero_le j) (by omega)
      exact this
  · intro hle horacle
    have hokt : ok = true := by
      cases ok with
      | true => rfl
      | false =>
        exact hok.mpr (by omega)
    subst hokt
    refine ⟨{ nm with baseAddress := none }, ?_,
      by show nm.entryCount = _; omega, rfl, hbs, hus, hpad, ?_⟩
    · unfold DuplicateManager
      dsimp only
      rw [hD]
      dsimp only
      unfold PicoManagerAlloc
      dsimp only
      rw [horacle _]
    · intro j hj
      show nm.entries.getD j emptyEntry = _
      exact hnew j (Nat.zero_le j) (by omega)

/-- Witness for C10: duplicating the two-live-entry source into a
capacity-1 catalog fails after registering exactly one entry, with no
executable region and the output pointer unwritten. -/
theorem C10_duplicate_no_rollback_witness :
    ∃ nm, DuplicateManager exampleX allocFail mC10
        (List.replicate 1 emptyEntry) 1 = (false, nm, none) ∧
      nm.entryCount = 1 ∧ nm.baseAddress = none ∧ nm.blockSize = 0 ∧
      nm.usedSize = 0 ∧ nm.interPicoPadding = mC10.interPicoPadding ∧
      (∀ j, j < 1 → nm.entries.getD j emptyEntry =
        regEntry exampleX j (((liveEntries mC10).getD j emptyEntry).name)
          (((liveEntries mC10).getD j emptyEntry).vault.getD 0)) :=
  (C10_duplicate_no_rollback exampleX allocFail mC10
    (List.replicate 1 emptyEntry) 1 (by decide)).1 (by decide)
